import Mathlib

/-!
Verification of the student-management data model and serialization layer
(`src/student_management.py`) against its natural-language specification.

Shallow embedding conventions:
* Python `int` is `ℤ`; Python `float` results of `round(x, 2)` are modelled as
  exact rationals (`ℚ`), with `round` modelled as round-half-to-even at two
  decimal places (the values arising here are exactly representable).
* Python strings are Lean `String`s; the string operations used by the source
  (`str.strip`, `str.isalnum`, `str.join`) are modelled on the underlying
  character lists, for the ASCII character repertoire exercised by the claims.
* `raise ValidationError` is modelled by `Except String`; a returned
  `Except.error` is a raised `ValidationError`.
* Python `dict` is an insertion-ordered association list; assignment to a key
  updates the existing entry in place or appends a new one (`dictSet`).
-/

/-- Models Python `str.strip()`: removes leading and trailing whitespace. -/
def pyStrip (s : String) : String :=
  ⟨((s.data.dropWhile Char.isWhitespace).reverse.dropWhile Char.isWhitespace).reverse⟩

/-- Models `"".join(c if c.isalnum() else "_" for c in key)` from
`XMLStorage._dict_to_xml` and `CSVStorage._flatten_dict` (`str.isalnum`
restricted to the ASCII alphanumerics, which covers the keys at issue). -/
def sanitizeKey (k : String) : String :=
  ⟨k.data.map (fun c => if c.isAlphanum then c else '_')⟩

/-- Models Python `sep.join(parts)`. -/
def joinSep (sep : String) (parts : List String) : String :=
  ⟨List.intercalate sep.data (parts.map String.data)⟩

/-- Round-half-to-even to the nearest integer, the rounding mode of Python's
built-in `round`. -/
def roundHalfEvenQ (q : ℚ) : ℤ :=
  if q - (⌊q⌋ : ℚ) < 1/2 then ⌊q⌋
  else if 1/2 < q - (⌊q⌋ : ℚ) then ⌊q⌋ + 1
  else if 2 ∣ ⌊q⌋ then ⌊q⌋ else ⌊q⌋ + 1

/-- Models Python `round(q, 2)`. -/
def round2 (q : ℚ) : ℚ := (roundHalfEvenQ (q * 100) : ℚ) / 100

/-- `RealPerformance.average_grade` / `DesiredPerformance.average_grade`:
`0.0` on an empty grade list, otherwise the mean rounded to two decimals.
The two subclasses carry byte-for-byte identical bodies, so one definition
models both. -/
def average_grade (grades : List ℤ) : ℚ :=
  if grades = [] then 0
  else round2 ((grades.sum : ℚ) / (grades.length : ℚ))

/-- The threshold chain of `RealPerformance.get_letter_grade`, as a function of
the already-computed average. -/
def letterOfAvg (avg : ℚ) : String :=
  if avg ≥ 90 then "A"
  else if avg ≥ 82 then "B"
  else if avg ≥ 75 then "C"
  else if avg ≥ 67 then "D"
  else if avg ≥ 60 then "E"
  else "F"

/-- `RealPerformance.get_letter_grade`: letter of the rounded average. -/
def get_letter_grade (grades : List ℤ) : String :=
  letterOfAvg (average_grade grades)

/-- The state of an `AcademicPerformance` object: its `_subjects` and
`_grades` fields. -/
structure AcademicPerformance where
  subjects : List String
  grades : List ℤ
  deriving Repr, DecidableEq

/-- The per-pair loop of `AcademicPerformance._validate_grades`: each grade
must lie in `[0, 100]` (the `isinstance(grade, int)` part is enforced by the
type `ℤ`), each subject must be non-empty after stripping; the first violation
is reported. -/
def validatePairs : List (String × ℤ) → Except String Unit
  | [] => .ok ()
  | (s, g) :: rest =>
    if ¬ (0 ≤ g ∧ g ≤ 100) then .error "grade must be an integer from 0 to 100"
    else if pyStrip s = "" then .error "subject name must not be empty"
    else validatePairs rest

/-- `AcademicPerformance._validate_grades`: empty-list check, length check,
then the zipped per-pair loop. -/
def validate_grades (ap : AcademicPerformance) : Except String Unit :=
  if ap.subjects = [] ∨ ap.grades = [] then
    .error "subject and grade lists must not be empty"
  else if ap.subjects.length ≠ ap.grades.length then
    .error "the number of subjects and grades must be equal"
  else validatePairs (ap.subjects.zip ap.grades)

/-- The `subjects` property setter: rejects an empty list or any entry that is
empty after stripping (the `isinstance(item, str)` part is enforced by the
type), and stores the stripped entries. -/
def setSubjects (value : List String) : Except String (List String) :=
  if value = [] ∨ value.any (fun item => pyStrip item = "") then
    .error "the subject list must contain non-empty strings"
  else .ok (value.map pyStrip)

/-- `AcademicPerformance.__init__`: runs the `subjects` setter, then the
`grades` setter (whose non-empty/int pre-check precedes the stored
assignment), then `_validate_grades`.  Both subclasses' `__init__` methods
delegate here unchanged. -/
def mkAcademicPerformance (subjects : List String) (grades : List ℤ) :
    Except String AcademicPerformance :=
  match setSubjects subjects with
  | .error e => .error e
  | .ok subs =>
    if grades = [] then .error "the grade list must contain integers"
    else
      let ap : AcademicPerformance := ⟨subs, grades⟩
      match validate_grades ap with
      | .error e => .error e
      | .ok _ => .ok ap

/-- The `grades` property setter on an already-constructed object: the
non-empty/int pre-check runs first (leaving the object untouched on failure),
then the new list is stored, then `_validate_grades` runs on the updated
object.  The returned pair is (post-state, outcome). -/
def setGrades (ap : AcademicPerformance) (value : List ℤ) :
    AcademicPerformance × Except String Unit :=
  if value = [] then (ap, .error "the grade list must contain integers")
  else
    let ap2 : AcademicPerformance := { ap with grades := value }
    (ap2, validate_grades ap2)

/-- Python dictionary assignment `m[k] = v` on an insertion-ordered
association list: an existing entry for `k` is overwritten in place, a new key
is appended. -/
def dictSet {α : Type} (m : List (String × α)) (k : String) (v : α) :
    List (String × α) :=
  if m.any (fun p => p.1 = k) then
    m.map (fun p => if p.1 = k then (k, v) else p)
  else m ++ [(k, v)]

/-- Builds a Python dict from a sequence of key/value pairs by repeated
assignment into an initially empty dict. -/
def dictOfItems {α : Type} (items : List (String × α)) : List (String × α) :=
  items.foldl (fun m p => dictSet m p.1 p.2) []

/-- `StudentData._get_improvement_needed`: iterates
`zip(real.subjects, real.grades, desired.grades)` (which truncates to the
shortest list) and assigns `improvement[subj] = max(0, desired - real)`. -/
def get_improvement_needed (realSubjects : List String)
    (realGrades desiredGrades : List ℤ) : List (String × ℤ) :=
  dictOfItems ((realSubjects.zip (realGrades.zip desiredGrades)).map
    (fun t => (t.1, max 0 (t.2.2 - t.2.1))))

/-- A Python `datetime.date` value as a year/month/day triple.  Only valid
calendar dates inhabit the Python type; validity is the predicate below. -/
structure PyDate where
  year : ℤ
  month : ℤ
  day : ℤ
  deriving Repr, DecidableEq

/-- Gregorian leap-year rule used by `datetime.date`. -/
def isLeapYear (y : ℤ) : Bool :=
  (decide (y % 4 = 0) && decide (y % 100 ≠ 0)) || decide (y % 400 = 0)

/-- Number of days in a month, per `datetime.date`. -/
def daysInMonth (y m : ℤ) : ℤ :=
  if m = 2 then (if isLeapYear y then 29 else 28)
  else if m = 4 ∨ m = 6 ∨ m = 9 ∨ m = 11 then 30 else 31

/-- Whether a year/month/day triple is a constructible `datetime.date`. -/
def isValidDate (d : PyDate) : Bool :=
  decide (1 ≤ d.year) && decide (d.year ≤ 9999) &&
  decide (1 ≤ d.month) && decide (d.month ≤ 12) &&
  decide (1 ≤ d.day) && decide (d.day ≤ daysInMonth d.year d.month)

/-- `datetime.date` comparison `a < b` (chronological order, lexicographic on
year, month, day). -/
def dateLtB (a b : PyDate) : Bool :=
  decide (a.year < b.year) ||
  (decide (a.year = b.year) &&
    (decide (a.month < b.month) ||
      (decide (a.month = b.month) && decide (a.day < b.day))))

/-- The `Student.birth_date` property setter: the `isinstance(value, date)`
check is modelled as calendar-date validity (only valid dates inhabit the
Python `date` type); a value later than `date.today()` is rejected; otherwise
the value is stored. -/
def birth_date_setter (today value : PyDate) : Except String PyDate :=
  if ¬ (isValidDate value = true) then
    .error "invalid date format, a date object is expected"
  else if dateLtB today value then
    .error "the birth date cannot be in the future"
  else .ok value

/-- The language-neutral export record produced by `StudentData.to_dict` and
consumed by the storage backends: Python scalars (strings, ints, the floats
produced by `round(_, 2)`, modelled as exact rationals), lists and
insertion-ordered dicts. -/
inductive Value where
  | vstr (s : String)
  | vint (n : ℤ)
  | vrat (q : ℚ)
  | vlist (xs : List Value)
  | vdict (kvs : List (String × Value))
  deriving Repr

/-- Decimal digits of a natural number, most significant first (fuel-driven
so that it reduces in the kernel). -/
def natToDigitsAux : ℕ → ℕ → List Char → List Char
  | 0, _, acc => acc
  | fuel+1, n, acc =>
    if n < 10 then Char.ofNat (48 + n) :: acc
    else natToDigitsAux fuel (n / 10) (Char.ofNat (48 + n % 10) :: acc)

/-- Python `str(n)` for a natural number. -/
def natStr (n : ℕ) : String := ⟨natToDigitsAux (n + 1) n []⟩

/-- Python `str(n)` for an integer. -/
def intStr (n : ℤ) : String :=
  if n < 0 then "-" ++ natStr (-n).toNat else natStr n.toNat

/-- Python `str(x)` for a float `x` carrying a value with at most two exact
decimal digits (the only floats in the export record, all produced by
`round(_, 2)` of grade means in `[0, 100]`, for which `repr` prints the
shortest decimal form). -/
def ratStr (q : ℚ) : String :=
  if q.den = 1 then intStr q.num ++ ".0"
  else
    if (⌊q * 100⌋ % 100) % 10 = 0 then
      intStr (⌊q * 100⌋ / 100) ++ "." ++ natStr (((⌊q * 100⌋ % 100) / 10).toNat)
    else if ⌊q * 100⌋ % 100 < 10 then
      intStr (⌊q * 100⌋ / 100) ++ ".0" ++ natStr ((⌊q * 100⌋ % 100).toNat)
    else
      intStr (⌊q * 100⌋ / 100) ++ "." ++ natStr ((⌊q * 100⌋ % 100).toNat)

/-- Python `str(val)` for the scalar values of the export record.  `str` of a
nested container (its `repr`) never occurs there — lists in the record hold
scalars only, which the serialization theorems establish where they rely on
it — so those branches carry inert placeholders. -/
def scalarStr : Value → String
  | .vstr s => s
  | .vint n => intStr n
  | .vrat q => ratStr q
  | .vlist _ => "<unmodelled list repr>"
  | .vdict _ => "<unmodelled dict repr>"

/-- An `xml.etree.ElementTree` element: tag, text content and child
elements. -/
structure XmlElem where
  tag : String
  text : String
  children : List XmlElem
  deriving Repr

mutual
/-- `XMLStorage._dict_to_xml`: an element tagged `tag` whose children encode
the dict's entries. -/
def dict_to_xml (tag : String) (d : List (String × Value)) : XmlElem :=
  ⟨tag, "", xmlChildren d⟩

/-- The child elements built by the loop of `_dict_to_xml`: each key is
sanitized into the child's tag; dict values recurse, list values become a
sequence of `item` children, scalars become text content. -/
def xmlChildren : List (String × Value) → List XmlElem
  | [] => []
  | (k, v) :: rest =>
    (match v with
     | .vdict d2 => dict_to_xml (sanitizeKey k) d2
     | .vlist xs => ⟨sanitizeKey k, "", xmlItems xs⟩
     | sc => ⟨sanitizeKey k, scalarStr sc, []⟩) :: xmlChildren rest

/-- The `item` elements built for a list value. -/
def xmlItems : List Value → List XmlElem
  | [] => []
  | v :: rest =>
    (match v with
     | .vdict d2 => dict_to_xml "item" d2
     | sc => ⟨"item", scalarStr sc, []⟩) :: xmlItems rest
end

mutual
/-- All tags of an XML element tree, root first. -/
def xmlTags : XmlElem → List String
  | ⟨t, _, cs⟩ => t :: xmlTagsList cs

/-- All tags of a forest of XML elements. -/
def xmlTagsList : List XmlElem → List String
  | [] => []
  | e :: rest => xmlTags e ++ xmlTagsList rest
end

/-- `XMLStorage.save`: rejects an empty record, otherwise builds the tree
rooted at `student_data`.  (The pretty-printing pass and the XML declaration
line only add whitespace and a header; the claims concern tags and
structure.) -/
def xmlSave (data : List (String × Value)) : Except String XmlElem :=
  if data.isEmpty then .error "no data to save"
  else .ok (dict_to_xml "student_data" data)

/-- The dotted-path key construction of `CSVStorage._flatten_dict`:
`f"{parent}{sep}{safe_key}" if parent else safe_key` with `sep = "."`. -/
def newKey (parent sk : String) : String :=
  if parent = "" then sk else parent ++ "." ++ sk

/-- `CSVStorage._flatten_dict`, as the ordered item list it accumulates:
dict values recurse with the extended dotted key, list values are joined into
one string field with `"; "`, scalars are kept (`None` becomes `""`; the
model has no null value). -/
def flatten_dict : List (String × Value) → String → List (String × Value)
  | [], _ => []
  | (k, v) :: rest, parent =>
    (match v with
     | .vdict d2 => flatten_dict d2 (newKey parent (sanitizeKey k))
     | .vlist xs =>
        [(newKey parent (sanitizeKey k), .vstr (joinSep "; " (xs.map scalarStr)))]
     | sc => [(newKey parent (sanitizeKey k), sc)]) ++ flatten_dict rest parent

/-- `CSVStorage.save`: rejects an empty record, otherwise flattens the
record, builds the Python dict from the items (`dict(items)`), and writes the
header row of flattened keys followed by exactly one data row of stringified
values.  The result is the written file as a list of rows of cells. -/
def csvSave (data : List (String × Value)) : Except String (List (List String)) :=
  if data.isEmpty then .error "no data to save"
  else
    let flat := dictOfItems (flatten_dict data "")
    .ok [flat.map Prod.fst, flat.map (fun p => scalarStr p.2)]

/-- Characters a JSON string emits unescaped (with `ensure_ascii=False`). -/
def jsonSafeChar (c : Char) : Bool :=
  !(c = '"' || c = '\\' || decide (c.toNat < 32))

/-- Lower-case hexadecimal digit. -/
def hexDigitChar (n : ℕ) : Char :=
  if n < 10 then Char.ofNat (48 + n) else Char.ofNat (87 + n)

/-- Four-digit hexadecimal rendering used by `\uXXXX` escapes. -/
def hex4 (n : ℕ) : List Char :=
  [hexDigitChar (n / 4096 % 16), hexDigitChar (n / 256 % 16),
   hexDigitChar (n / 16 % 16), hexDigitChar (n % 16)]

/-- How `json.dump` (with `ensure_ascii=False`) renders one character of a
string. -/
def jsonEscapeChar (c : Char) : List Char :=
  if c = '"' then ['\\', '"']
  else if c = '\\' then ['\\', '\\']
  else if c = '\n' then ['\\', 'n']
  else if c = '\t' then ['\\', 't']
  else if c = '\r' then ['\\', 'r']
  else if c = Char.ofNat 8 then ['\\', 'b']
  else if c = Char.ofNat 12 then ['\\', 'f']
  else if c.toNat < 32 then '\\' :: 'u' :: hex4 c.toNat
  else [c]

/-- `json.dump`'s rendering of a string body (without the quotes). -/
def jsonEscape (s : String) : String := ⟨s.data.flatMap jsonEscapeChar⟩

/-- A run of `n` spaces. -/
def spacesN (n : ℕ) : String := ⟨List.replicate n ' '⟩

mutual
/-- `json.dump(data, ensure_ascii=False, indent=4, default=str)` at nesting
level `lvl`: the serialized text of one value. -/
def dumpValue (lvl : ℕ) : Value → String
  | .vstr s => "\"" ++ jsonEscape s ++ "\""
  | .vint n => intStr n
  | .vrat q => ratStr q
  | .vlist xs =>
    if xs.isEmpty then "[]"
    else "[\n" ++ dumpList (lvl + 1) xs ++ "\n" ++ spacesN (4 * lvl) ++ "]"
  | .vdict d =>
    if d.isEmpty then "\x7b\x7d"
    else "\x7b\n" ++ dumpDict (lvl + 1) d ++ "\n" ++ spacesN (4 * lvl) ++ "\x7d"

/-- The comma-and-newline separated renderings of a JSON array's items. -/
def dumpList (lvl : ℕ) : List Value → String
  | [] => ""
  | [v] => spacesN (4 * lvl) ++ dumpValue lvl v
  | v :: rest =>
    spacesN (4 * lvl) ++ dumpValue lvl v ++ ",\n" ++ dumpList lvl rest

/-- The comma-and-newline separated renderings of a JSON object's entries;
each key is emitted as an escaped quoted string, unmodified otherwise. -/
def dumpDict (lvl : ℕ) : List (String × Value) → String
  | [] => ""
  | [(k, v)] =>
    spacesN (4 * lvl) ++ "\"" ++ jsonEscape k ++ "\": " ++ dumpValue lvl v
  | (k, v) :: rest =>
    spacesN (4 * lvl) ++ "\"" ++ jsonEscape k ++ "\": " ++ dumpValue lvl v
      ++ ",\n" ++ dumpDict lvl rest
end

/-- `JSONStorage.save`: rejects an empty record, otherwise the serialized
document text. -/
def jsonSave (data : List (String × Value)) : Except String String :=
  if data.isEmpty then .error "no data to save"
  else .ok (dumpValue 0 (.vdict data))

/-- Specification-side view of the record: the list of (key path, leaf value)
pairs reachable along nested dicts, in document order.  Lists and scalars are
leaves. -/
def leafEntries : List (String × Value) → List (List String × Value)
  | [] => []
  | (k, v) :: rest =>
    (match v with
     | .vdict d2 => (leafEntries d2).map (fun pv => (k :: pv.1, pv.2))
     | other => [([k], other)]) ++ leafEntries rest

/-- Specification-side rendering of a leaf for the tabular backend: list
leaves are joined with `"; "`, scalars kept. -/
def flatLeaf : Value → Value
  | .vlist xs => .vstr (joinSep "; " (xs.map scalarStr))
  | v => v

/-- The flattened column name of a key path under an accumulated dotted
prefix. -/
def joinedKey (parent : String) (path : List String) : String :=
  path.foldl (fun acc k => newKey acc (sanitizeKey k)) parent

/-- Specification-side key set of the record along its dict spine — exactly
the keys the document backend prints (export records carry no mappings inside
lists, which `wfRecord` asserts). -/
def allKeysD : List (String × Value) → List String
  | [] => []
  | (k, v) :: rest =>
    (k :: (match v with | .vdict d2 => allKeysD d2 | _ => [])) ++ allKeysD rest

/-- Structural well-formedness of an export record: nested dicts are
non-empty and lists hold scalars only.  `StudentData.to_dict` output satisfies
this (proved below). -/
def wfRecord : List (String × Value) → Bool
  | [] => true
  | (_, v) :: rest =>
    (match v with
     | .vdict d2 => !d2.isEmpty && wfRecord d2
     | .vlist xs =>
        xs.all (fun item =>
          match item with
          | .vdict _ => false
          | .vlist _ => false
          | _ => true)
     | _ => true) && wfRecord rest

/-- The state of a `Student` object: its stored (already stripped and
validated) fields. -/
structure Student where
  last_name : String
  first_name : String
  middle_name : String
  group_number : String
  birth_date : PyDate
  address : String
  deriving Repr, DecidableEq

/-- The `Student.full_name` property. -/
def full_name (s : Student) : String :=
  s.last_name ++ " " ++ s.first_name ++ " " ++ s.middle_name

/-- The `Student.age` property: whole years from the birth date to `today`,
subtracting one when this year's birthday has not yet occurred. -/
def ageOn (today birth : PyDate) : ℤ :=
  today.year - birth.year -
    (if today.month < birth.month ∨
        (today.month = birth.month ∧ today.day < birth.day) then 1 else 0)

/-- Zero-padded two-digit field of `date.isoformat()`. -/
def pad2 (n : ℤ) : String := if n < 10 then "0" ++ intStr n else intStr n

/-- Zero-padded four-digit year of `date.isoformat()`. -/
def pad4 (n : ℤ) : String :=
  if n < 10 then "000" ++ intStr n
  else if n < 100 then "00" ++ intStr n
  else if n < 1000 then "0" ++ intStr n
  else intStr n

/-- `date.isoformat()`: `YYYY-MM-DD`. -/
def isoformat (d : PyDate) : String :=
  pad4 d.year ++ "-" ++ pad2 d.month ++ "-" ++ pad2 d.day

/-- `StudentData.to_dict`: the export record (as the root dict's entry
list). -/
def to_dict (today : PyDate) (st : Student) (rp dp : AcademicPerformance) :
    List (String × Value) :=
  [("student", .vdict [
      ("full_name", .vstr (full_name st)),
      ("last_name", .vstr st.last_name),
      ("first_name", .vstr st.first_name),
      ("middle_name", .vstr st.middle_name),
      ("group_number", .vstr st.group_number),
      ("birth_date", .vstr (isoformat st.birth_date)),
      ("age", .vint (ageOn today st.birth_date)),
      ("address", .vstr st.address)]),
   ("real_performance", .vdict [
      ("subjects", .vlist (rp.subjects.map .vstr)),
      ("grades", .vlist (rp.grades.map .vint)),
      ("average_grade", .vrat (average_grade rp.grades)),
      ("letter_grade", .vstr (get_letter_grade rp.grades))]),
   ("desired_performance", .vdict [
      ("subjects", .vlist (dp.subjects.map .vstr)),
      ("desired_grades", .vlist (dp.grades.map .vint)),
      ("desired_average", .vrat (average_grade dp.grades)),
      ("improvement_needed", .vdict
        ((get_improvement_needed rp.subjects rp.grades dp.grades).map
          (fun p => (p.1, .vint p.2))))])]

-- ## END OF DEFINITIONS

example : pyStrip "  a " = "a" := by decide
example : sanitizeKey "Phys-101" = "Phys_101" := by decide
example : (mkAcademicPerformance ["Math", "Physics"] [85, 90]).isOk = true := by decide
example : (mkAcademicPerformance ["Math"] [85, 90]).isOk = false := by decide
example : (mkAcademicPerformance ["Math", " "] [85, 90]).isOk = false := by decide
example : (mkAcademicPerformance ["Math", "P"] [85, 101]).isOk = false := by decide

-- ## Supporting lemmas

theorem dropWhile_head_not {α : Type} (p : α → Bool) :
    ∀ l : List α, l.dropWhile p = [] ∨
      ∃ c t, l.dropWhile p = c :: t ∧ ¬ p c := by
  intro l
  induction l with
  | nil => left; rfl
  | cons a t ih =>
    by_cases ha : p a
    · rw [List.dropWhile_cons_of_pos ha]; exact ih
    · right; exact ⟨a, t, List.dropWhile_cons_of_neg ha, ha⟩

theorem pyStrip_eq_empty_iff (s : String) :
    pyStrip s = "" ↔ ∀ c ∈ s.data, c.isWhitespace := by
  have hmk : ∀ l : List Char, (⟨l⟩ : String) = "" ↔ l = [] := by
    intro l
    constructor
    · intro h
      have h2 : (String.mk l).data = ("" : String).data := congrArg String.data h
      simpa using h2
    · intro h; rw [h]
  unfold pyStrip
  rw [hmk]
  rw [List.reverse_eq_nil_iff, List.dropWhile_eq_nil_iff]
  constructor
  · intro h c hc
    have hsplit := List.takeWhile_append_dropWhile (p := Char.isWhitespace) (l := s.data)
    rw [← hsplit] at hc
    rcases List.mem_append.mp hc with h1 | h1
    · exact List.mem_takeWhile_imp h1
    · exact h (c) (List.mem_reverse.mpr h1)
  · intro h c hc
    exact h c ((List.dropWhile_sublist _).subset (List.mem_reverse.mp hc))

theorem pyStrip_pyStrip_ne_empty {s : String} (h : pyStrip s ≠ "") :
    pyStrip (pyStrip s) ≠ "" := by
  intro hcontra
  rw [pyStrip_eq_empty_iff] at hcontra
  apply h
  rw [pyStrip_eq_empty_iff]
  intro c hc
  by_contra hcw
  -- the stripped string ends with the head of `dropWhile isWhitespace s.data`,
  -- a non-whitespace character; derive the contradiction from that head.
  unfold pyStrip at hcontra
  rcases dropWhile_head_not Char.isWhitespace
      ((s.data.dropWhile Char.isWhitespace).reverse) with hnil | ⟨c0, t, heq, hc0⟩
  · -- then the whole strip is empty, contradicting that `c` survives in `s`
    rw [List.dropWhile_eq_nil_iff] at hnil
    have : c ∈ s.data.dropWhile Char.isWhitespace := by
      have hsplit := List.takeWhile_append_dropWhile (p := Char.isWhitespace) (l := s.data)
      rw [← hsplit] at hc
      rcases List.mem_append.mp hc with h1 | h1
      · exact absurd (List.mem_takeWhile_imp h1) hcw
      · exact h1
    exact hcw (hnil c (List.mem_reverse.mpr this))
  · have hc0mem : c0 ∈ ((s.data.dropWhile Char.isWhitespace).reverse.dropWhile
        Char.isWhitespace).reverse := by
      rw [heq]; simp
    exact hc0 (hcontra c0 hc0mem)

theorem validatePairs_ok_iff (l : List (String × ℤ)) :
    validatePairs l = .ok () ↔
      ∀ p ∈ l, (0 ≤ p.2 ∧ p.2 ≤ 100) ∧ pyStrip p.1 ≠ "" := by
  induction l with
  | nil => simp [validatePairs]
  | cons a t ih =>
    obtain ⟨s, g⟩ := a
    unfold validatePairs
    by_cases hg : 0 ≤ g ∧ g ≤ 100
    · rw [if_neg (by simpa using hg)]
      by_cases hs : pyStrip s = ""
      · rw [if_pos hs]
        simp only [List.mem_cons]
        constructor
        · intro h; cases h
        · intro h
          exact absurd (h (s, g) (Or.inl rfl)).2 (by simp [hs])
      · rw [if_neg hs, ih]
        constructor
        · intro h p hp
          rcases List.mem_cons.mp hp with h1 | h1
          · rw [h1]; exact ⟨hg, hs⟩
          · exact h p h1
        · intro h p hp
          exact h p (List.mem_cons_of_mem _ hp)
    · rw [if_pos (by simpa using hg)]
      simp only [List.mem_cons]
      constructor
      · intro h; cases h
      · intro h
        exact absurd (h (s, g) (Or.inl rfl)).1 hg

theorem roundHalfEvenQ_abs_le (x : ℚ) : |(roundHalfEvenQ x : ℚ) - x| ≤ 1/2 := by
  unfold roundHalfEvenQ
  have h0 : (0 : ℚ) ≤ x - (⌊x⌋ : ℚ) := by
    have := Int.floor_le x; linarith
  have h1 : x - (⌊x⌋ : ℚ) < 1 := by
    have := Int.lt_floor_add_one x; linarith
  split_ifs with hlt hgt hev <;> (rw [abs_le]; push_cast; constructor <;> linarith)

theorem round2_floor_2633 : roundHalfEvenQ ((263 : ℚ) / 3 * 100) = 8767 := by
  have hval : (263 : ℚ) / 3 * 100 = 26300 / 3 := by norm_num
  have hfl : ⌊(26300 : ℚ) / 3⌋ = 8766 := by
    rw [Int.floor_eq_iff] <;> norm_num
  unfold roundHalfEvenQ
  rw [hval, hfl]
  have h1 : ¬ ((26300 : ℚ) / 3 - ((8766 : ℤ) : ℚ) < 1/2) := by push_cast; norm_num
  have h2 : (1 : ℚ)/2 < (26300 : ℚ) / 3 - ((8766 : ℤ) : ℚ) := by push_cast; norm_num
  rw [if_neg h1, if_pos h2]
  norm_num

-- ## Claim theorems

/-- Claim C1: for every valid grade sequence (non-empty, integers in
`[0, 100]`), `average_grade()` — identical on `RealPerformance` and
`DesiredPerformance` — returns the arithmetic mean rounded to 2 decimal
places: it equals the mean rounded half-to-even at the second decimal, is an
exact multiple of `1/100`, differs from the true mean by at most `1/200`, and
on `[85, 90, 88]` yields `87.67`. -/
theorem c1_average_grade (grades : List ℤ) (hne : grades ≠ [])
    (hvalid : ∀ g ∈ grades, 0 ≤ g ∧ g ≤ 100) :
    average_grade grades = round2 ((grades.sum : ℚ) / (grades.length : ℚ)) ∧
    (average_grade grades * 100).den = 1 ∧
    |average_grade grades - (grades.sum : ℚ) / (grades.length : ℚ)| ≤ 1/200 ∧
    average_grade [85, 90, 88] = 8767/100 := by
  have hdef : average_grade grades = round2 ((grades.sum : ℚ) / (grades.length : ℚ)) := by
    simp [average_grade, hne]
  refine ⟨hdef, ?_, ?_, ?_⟩
  · rw [hdef]
    unfold round2
    rw [div_mul_cancel₀ _ (by norm_num : (100 : ℚ) ≠ 0)]
    exact Rat.den_intCast _
  · rw [hdef]
    unfold round2
    set m : ℚ := (grades.sum : ℚ) / (grades.length : ℚ) with hm
    have habs := roundHalfEvenQ_abs_le (m * 100)
    have heq : (roundHalfEvenQ (m * 100) : ℚ) / 100 - m
        = ((roundHalfEvenQ (m * 100) : ℚ) - m * 100) / 100 := by ring
    rw [heq, abs_div, abs_of_pos (show (0:ℚ) < 100 by norm_num)]
    rw [div_le_iff₀ (by norm_num : (0:ℚ) < 100)]
    calc |(roundHalfEvenQ (m * 100) : ℚ) - m * 100| ≤ 1/2 := habs
      _ = 1/200 * 100 := by norm_num
  · have h3 : ([85, 90, 88] : List ℤ) ≠ [] := by simp
    simp only [average_grade, if_neg h3]
    have hsum : ([85, 90, 88] : List ℤ).sum = 263 := by norm_num
    have hlen : (([85, 90, 88] : List ℤ).length : ℚ) = 3 := by norm_num
    rw [hsum, hlen]
    unfold round2
    rw [show ((263 : ℤ) : ℚ) = 263 by norm_num, round2_floor_2633]
    norm_num

/-- Claim C1 witness: the theorem applied to the concrete valid sequence
`[85, 90, 88]`. -/
theorem c1_average_grade_witness :
    average_grade [85, 90, 88] = 8767/100 :=
  (c1_average_grade [85, 90, 88] (by simp) (by decide)).2.2.2

/-- Claim C2: `get_letter_grade()` maps the average through descending
thresholds with inclusive lower boundaries, first match winning:
`≥90 → A`, `≥82 → B`, `≥75 → C`, `≥67 → D`, `≥60 → E`, else `F`; in
particular `90.0 → A`, `89.99 → B`, `82.0 → B`, `59.99 → F`. -/
theorem c2_letter_grade_thresholds :
    (∀ grades : List ℤ, get_letter_grade grades = letterOfAvg (average_grade grades)) ∧
    (∀ avg : ℚ,
      (90 ≤ avg → letterOfAvg avg = "A") ∧
      (82 ≤ avg → avg < 90 → letterOfAvg avg = "B") ∧
      (75 ≤ avg → avg < 82 → letterOfAvg avg = "C") ∧
      (67 ≤ avg → avg < 75 → letterOfAvg avg = "D") ∧
      (60 ≤ avg → avg < 67 → letterOfAvg avg = "E") ∧
      (avg < 60 → letterOfAvg avg = "F")) ∧
    letterOfAvg 90 = "A" ∧ letterOfAvg (8999/100) = "B" ∧
    letterOfAvg 82 = "B" ∧ letterOfAvg (5999/100) = "F" := by
  refine ⟨fun _ => rfl, ?_, ?_, ?_, ?_, ?_⟩
  · intro avg
    unfold letterOfAvg
    refine ⟨?_, ?_, ?_, ?_, ?_, ?_⟩ <;> intros <;> split_ifs <;>
      first | rfl | (exfalso; linarith)
  · norm_num [letterOfAvg]
  · norm_num [letterOfAvg]
  · norm_num [letterOfAvg]
  · norm_num [letterOfAvg]

/-- Claim C2 witness: the threshold part of the theorem applied at the
concrete average `95`. -/
theorem c2_letter_grade_thresholds_witness : letterOfAvg 95 = "A" :=
  (c2_letter_grade_thresholds.2.1 95).1 (by norm_num)

/-- Claim C4: constructing a `RealPerformance` or `DesiredPerformance`
(both run the shared `AcademicPerformance.__init__`) fails with
`ValidationError` whenever the two sequences have different lengths, either
sequence is empty, some grade lies outside `[0, 100]`, or some subject name is
empty or whitespace-only — and succeeds exactly when all these checks pass. -/
theorem c4_construction_validation (subjects : List String) (grades : List ℤ) :
    (mkAcademicPerformance subjects grades).isOk = true ↔
      (subjects ≠ [] ∧ grades ≠ [] ∧ subjects.length = grades.length ∧
       (∀ g ∈ grades, 0 ≤ g ∧ g ≤ 100) ∧ (∀ s ∈ subjects, pyStrip s ≠ "")) := by
  unfold mkAcademicPerformance setSubjects
  by_cases hsub : subjects = [] ∨ subjects.any (fun item => pyStrip item = "")
  · rw [if_pos hsub]
    simp only [Except.isOk, Except.toBool]
    constructor
    · intro h; cases h
    · rintro ⟨h1, _, _, _, h5⟩
      rcases hsub with h | h
      · exact absurd h h1
      · obtain ⟨s, hs, hs'⟩ := List.any_eq_true.mp h
        exact absurd (by simpa using hs') (by simpa using h5 s hs)
  · rw [if_neg hsub]
    push_neg at hsub
    obtain ⟨hne, hall⟩ := hsub
    have hallne : ∀ s ∈ subjects, pyStrip s ≠ "" := by
      intro s hs hc
      exact hall (List.any_eq_true.mpr ⟨s, hs, by simp [hc]⟩)
    dsimp only
    by_cases hgr : grades = []
    · rw [if_pos hgr]
      simp only [Except.isOk, Except.toBool]
      constructor
      · intro h; cases h
      · rintro ⟨_, h2, _⟩; exact absurd hgr h2
    · rw [if_neg hgr]
      unfold validate_grades
      simp only [List.length_map]
      have hmapne : subjects.map pyStrip ≠ [] := by
        simpa using hne
      rw [if_neg (by simp [hmapne, hgr])]
      by_cases hlen : subjects.length = grades.length
      · rw [if_neg (by simp [hlen])]
        rcases h : validatePairs ((subjects.map pyStrip).zip grades) with e | u
        · dsimp only
          constructor
          · intro hc; exact Bool.noConfusion (show false = true from hc)
          · rintro ⟨_, _, _, h4, h5⟩
            have hok : validatePairs ((subjects.map pyStrip).zip grades) = .ok () := by
              rw [validatePairs_ok_iff]
              intro p hp
              have hfst : p.1 ∈ subjects.map pyStrip := by
                have hz := List.map_fst_zip (subjects.map pyStrip) grades
                  (by simp [hlen])
                rw [← hz]
                exact List.mem_map_of_mem Prod.fst hp
              have hsnd : p.2 ∈ grades := by
                have hz := List.map_snd_zip (subjects.map pyStrip) grades
                  (by simp [hlen])
                rw [← hz]
                exact List.mem_map_of_mem Prod.snd hp
              obtain ⟨s0, hs0, hs0e⟩ := List.mem_map.mp hfst
              exact ⟨h4 p.2 hsnd, hs0e ▸ pyStrip_pyStrip_ne_empty (hallne s0 hs0)⟩
            rw [hok] at h
            cases h
        · cases u
          dsimp only
          constructor
          · intro _
            refine ⟨hne, hgr, hlen, ?_, hallne⟩
            rw [validatePairs_ok_iff] at h
            intro g hg
            have hmem : ∃ p ∈ (subjects.map pyStrip).zip grades, p.2 = g := by
              have hz := List.map_snd_zip (subjects.map pyStrip) grades
                (by simp [hlen])
              rw [← hz] at hg
              obtain ⟨p, hp, hpe⟩ := List.mem_map.mp hg
              exact ⟨p, hp, hpe⟩
            obtain ⟨p, hp, hpe⟩ := hmem
            exact hpe ▸ (h p hp).1
          · intro _; rfl
      · rw [if_pos (by simp [hlen])]
        dsimp only
        constructor
        · intro hc; exact Bool.noConfusion (show false = true from hc)
        · rintro ⟨_, _, h3, _⟩; exact absurd h3 hlen

/-- Claim C4 has no top-level `Prop` hypothesis (it is an equivalence), but we
record a concrete success and a concrete failure instance derived from it. -/
theorem c4_construction_validation_witness :
    (mkAcademicPerformance ["Math", "Physics"] [85, 90]).isOk = true ∧
    (mkAcademicPerformance ["Math"] [85, 90]).isOk ≠ true :=
  ⟨(c4_construction_validation ["Math", "Physics"] [85, 90]).mpr
      ⟨by simp, by simp, by simp, by decide, by decide⟩,
   fun h => by
     have := (c4_construction_validation ["Math"] [85, 90]).mp h
     exact absurd this.2.2.1 (by decide)⟩

theorem dictSet_not_mem {α : Type} {m : List (String × α)} {k : String} (v : α)
    (h : k ∉ m.map Prod.fst) : dictSet m k v = m ++ [(k, v)] := by
  unfold dictSet
  rw [if_neg]
  intro hc
  obtain ⟨p, hp, hpk⟩ := List.any_eq_true.mp hc
  exact h (List.mem_map.mpr ⟨p, hp, by simpa using hpk⟩)

theorem mem_dictSet {α : Type} {m : List (String × α)} {k : String} {v : α}
    {p : String × α} (h : p ∈ dictSet m k v) : p = (k, v) ∨ p ∈ m := by
  unfold dictSet at h
  split_ifs at h with hany
  · obtain ⟨q, hq, hqe⟩ := List.mem_map.mp h
    by_cases hqk : q.1 = k
    · rw [if_pos hqk] at hqe; exact Or.inl hqe.symm
    · rw [if_neg hqk] at hqe; exact Or.inr (hqe ▸ hq)
  · rcases List.mem_append.mp h with h1 | h1
    · exact Or.inr h1
    · exact Or.inl (by simpa using h1)

theorem foldl_dictSet_nodup {α : Type} :
    ∀ (items acc : List (String × α)),
      (acc.map Prod.fst ++ items.map Prod.fst).Nodup →
      items.foldl (fun m p => dictSet m p.1 p.2) acc = acc ++ items := by
  intro items
  induction items with
  | nil => intro acc _; simp
  | cons a t ih =>
    intro acc hnd
    obtain ⟨k, v⟩ := a
    simp only [List.map_cons] at hnd
    have hdisj := List.disjoint_of_nodup_append hnd
    have hk : k ∉ acc.map Prod.fst := fun hc => hdisj hc (List.mem_cons_self _ _)
    simp only [List.foldl_cons]
    rw [dictSet_not_mem v hk]
    rw [ih (acc ++ [(k, v)]) (by
      simp only [List.map_append, List.map_cons, List.map_nil, List.append_assoc]
      simpa using hnd)]
    simp

theorem foldl_dictSet_forall {α : Type} (P : α → Prop) :
    ∀ (items acc : List (String × α)),
      (∀ p ∈ acc, P p.2) → (∀ p ∈ items, P p.2) →
      ∀ p ∈ items.foldl (fun m p => dictSet m p.1 p.2) acc, P p.2 := by
  intro items
  induction items with
  | nil => intro acc hacc _ p hp; exact hacc p hp
  | cons a t ih =>
    intro acc hacc hitems p hp
    simp only [List.foldl_cons] at hp
    refine ih (dictSet acc a.1 a.2) ?_ (fun q hq => hitems q (List.mem_cons_of_mem _ hq)) p hp
    intro q hq
    rcases mem_dictSet hq with h1 | h1
    · rw [h1]; exact hitems a (List.mem_cons_self a t)
    · exact hacc q h1

theorem map_fst_zip_eq_take {β : Type} :
    ∀ (l1 : List String) (l2 : List β),
      (l1.zip l2).map Prod.fst = l1.take l2.length := by
  intro l1
  induction l1 with
  | nil => intro l2; simp
  | cons a t ih =>
    intro l2
    cases l2 with
    | nil => simp
    | cons b t2 => simp [ih t2]

theorem improvement_items_keys_nodup (rs : List String) (rg dg : List ℤ)
    (hnd : rs.Nodup) :
    (((rs.zip (rg.zip dg)).map (fun t => (t.1, max 0 (t.2.2 - t.2.1)))).map
      Prod.fst).Nodup := by
  have hmap : ((rs.zip (rg.zip dg)).map
      (fun t : String × ℤ × ℤ => (t.1, max 0 (t.2.2 - t.2.1)))).map Prod.fst
      = (rs.zip (rg.zip dg)).map Prod.fst := by
    rw [List.map_map]; rfl
  rw [hmap, map_fst_zip_eq_take]
  exact hnd.sublist (List.take_sublist _ _)

theorem get_improvement_needed_eq_map (rs : List String) (rg dg : List ℤ)
    (hnd : rs.Nodup) :
    get_improvement_needed rs rg dg
      = (rs.zip (rg.zip dg)).map (fun t => (t.1, max 0 (t.2.2 - t.2.1))) := by
  unfold get_improvement_needed dictOfItems
  rw [foldl_dictSet_nodup _ [] (by
    simpa using improvement_items_keys_nodup rs rg dg hnd)]
  simp

/-- Claim C3: the derived improvement-needed mapping pairs the parallel
sequences positionally, assigning each subject name `max(0, desired − real)`;
no value is ever negative; for real `[85, 90, 88]`, desired `[90, 95, 95]`
over `[Math, Physics, Programming]` it yields
`{Math: 5, Physics: 5, Programming: 7}`.  (Positional pairing is stated under
distinctness of the subject names, without which a dictionary keyed by
subject collapses repeated names.) -/
theorem c3_improvement_needed (rs : List String) (rg dg : List ℤ)
    (hnd : rs.Nodup) :
    get_improvement_needed rs rg dg
      = (rs.zip (rg.zip dg)).map (fun t => (t.1, max 0 (t.2.2 - t.2.1))) ∧
    (∀ (rs' : List String) (rg' dg' : List ℤ),
      ∀ p ∈ get_improvement_needed rs' rg' dg', 0 ≤ p.2) ∧
    get_improvement_needed ["Math", "Physics", "Programming"]
        [85, 90, 88] [90, 95, 95]
      = [("Math", 5), ("Physics", 5), ("Programming", 7)] := by
  refine ⟨get_improvement_needed_eq_map rs rg dg hnd, ?_, ?_⟩
  · intro rs' rg' dg' p hp
    refine foldl_dictSet_forall (fun v => 0 ≤ v) _ [] (by simp) ?_ p hp
    intro q hq
    obtain ⟨t, _, ht⟩ := List.mem_map.mp hq
    rw [← ht]
    exact le_max_left 0 _
  · decide

/-- Claim C3 witness: the theorem applied to the concrete example from the
specification. -/
theorem c3_improvement_needed_witness :
    get_improvement_needed ["Math", "Physics", "Programming"]
        [85, 90, 88] [90, 95, 95]
      = [("Math", 5), ("Physics", 5), ("Programming", 7)] :=
  (c3_improvement_needed ["Math", "Physics", "Programming"]
    [85, 90, 88] [90, 95, 95] (by decide)).2.2

/-- Claim C9: when the real and desired grade lists have different lengths
(`StudentData.__init__` checks only the argument types), the improvement
computation raises no error and covers exactly the first
`min(len_real, len_desired)` positions, pairing the real performance's subject
at each index with the desired grade at the same index; later entries are
dropped.  (`hlen` is the `RealPerformance` class invariant
`len(subjects) == len(grades)`.) -/
theorem c9_improvement_truncates (rs : List String) (rg dg : List ℤ)
    (hlen : rs.length = rg.length) (hnd : rs.Nodup) :
    (get_improvement_needed rs rg dg).length = min rg.length dg.length ∧
    (∀ i a b, rg.get? i = some a → dg.get? i = some b →
      ∃ s, rs.get? i = some s ∧
        (get_improvement_needed rs rg dg).get? i = some (s, max 0 (b - a))) := by
  have hform := get_improvement_needed_eq_map rs rg dg hnd
  constructor
  · rw [hform]
    simp only [List.length_map, List.length_zip]
    omega
  · intro i a b ha hb
    have hia : i < rg.length := by
      rcases List.get?_eq_some.mp ha with ⟨h, _⟩; exact h
    have his : i < rs.length := by omega
    have hs : rs.get? i = some (rs.get ⟨i, his⟩) := List.get?_eq_get his
    refine ⟨rs.get ⟨i, his⟩, hs, ?_⟩
    rw [hform]
    have hzip2 : (rg.zip dg).get? i = some (a, b) :=
      (List.get?_zip_eq_some _ _ _ _).mpr ⟨ha, hb⟩
    have hzip3 : (rs.zip (rg.zip dg)).get? i = some (rs.get ⟨i, his⟩, (a, b)) :=
      (List.get?_zip_eq_some _ _ _ _).mpr ⟨hs, hzip2⟩
    rw [List.get?_map, hzip3]
    rfl

/-- Claim C9 witness: a concrete mismatched pair — real lists of length 2,
desired grades of length 1 — yields a single-entry mapping pairing the first
real subject with the first desired grade. -/
theorem c9_improvement_truncates_witness :
    (get_improvement_needed ["Math", "Physics"] [85, 90] [90]).length = min 2 1 ∧
    (∃ s, (["Math", "Physics"] : List String).get? 0 = some s ∧
      (get_improvement_needed ["Math", "Physics"] [85, 90] [90]).get? 0
        = some (s, max 0 (90 - 85))) := by
  have h := c9_improvement_truncates ["Math", "Physics"] [85, 90] [90]
    (by decide) (by decide)
  exact ⟨h.1, h.2 0 85 90 (by decide) (by decide)⟩

/-- Claim C10: the `grades` setter stores the new (non-empty) integer list
before validation runs, so on a validation failure (length mismatch with the
subjects, or an out-of-range grade) a `ValidationError` is raised while the
object is left holding the new, invalid list — the failed update is not
atomic. -/
theorem c10_grades_setter_not_atomic (ap : AcademicPerformance) (v : List ℤ)
    (hv : v ≠ []) :
    (setGrades ap v).1 = { ap with grades := v } ∧
    (setGrades ap v).2 = validate_grades { ap with grades := v } ∧
    (ap.subjects.length ≠ v.length → (setGrades ap v).2.isOk = false) ∧
    ((∃ g ∈ v, ¬ (0 ≤ g ∧ g ≤ 100)) → ap.subjects.length = v.length →
      (setGrades ap v).2.isOk = false) := by
  unfold setGrades
  rw [if_neg hv]
  refine ⟨rfl, rfl, ?_, ?_⟩
  · intro hlen
    unfold validate_grades
    dsimp only
    by_cases hemp : ap.subjects = [] ∨ v = []
    · rw [if_pos hemp]; rfl
    · rw [if_neg hemp, if_pos hlen]; rfl
  · intro hbad hlen
    unfold validate_grades
    dsimp only
    have hsne : ap.subjects ≠ [] := by
      intro hc
      apply hv
      have : ap.subjects.length = 0 := by rw [hc]; rfl
      cases v with
      | nil => rfl
      | cons x t => rw [hc] at hlen; simp at hlen
    rw [if_neg (by simp [hsne, hv]), if_neg (by simp [hlen])]
    obtain ⟨g, hg, hgbad⟩ := hbad
    rcases hres : validatePairs (ap.subjects.zip v) with e | u
    · rfl
    · exfalso
      cases u
      rw [validatePairs_ok_iff] at hres
      have hgz : ∃ p ∈ ap.subjects.zip v, p.2 = g := by
        have hz := List.map_snd_zip ap.subjects v (by omega)
        rw [← hz] at hg
        obtain ⟨p, hp, hpe⟩ := List.mem_map.mp hg
        exact ⟨p, hp, hpe⟩
      obtain ⟨p, hp, hpe⟩ := hgz
      exact hgbad (hpe ▸ (hres p hp).1)

/-- Claim C10 witness: assigning the too-short list `[50]` to an object with
two subjects raises, yet leaves the object holding `[50]`. -/
theorem c10_grades_setter_not_atomic_witness :
    (setGrades ⟨["Math", "P"], [85, 90]⟩ [50]).1
      = (⟨["Math", "P"], [50]⟩ : AcademicPerformance) ∧
    (setGrades ⟨["Math", "P"], [85, 90]⟩ [50]).2.isOk = false := by
  have h := c10_grades_setter_not_atomic ⟨["Math", "P"], [85, 90]⟩ [50]
    (by decide)
  exact ⟨h.1, h.2.2.1 (by decide)⟩

/-- Claim C5: the birth-date setter accepts a birth date equal to the current
date, rejects with `ValidationError` any birth date strictly later than the
current date, and rejects any value that is not a valid calendar date. -/
theorem c5_birth_date_setter (today v : PyDate)
    (htoday : isValidDate today = true) :
    birth_date_setter today today = .ok today ∧
    (isValidDate v = true → dateLtB today v = true →
      ∃ e, birth_date_setter today v = .error e) ∧
    (isValidDate v = false → ∃ e, birth_date_setter today v = .error e) := by
  refine ⟨?_, ?_, ?_⟩
  · unfold birth_date_setter
    rw [if_neg (by simp [htoday])]
    have hlt : dateLtB today today = false := by
      simp [dateLtB]
    rw [if_neg (by simp [hlt])]
  · intro h1 h2
    refine ⟨"the birth date cannot be in the future", ?_⟩
    unfold birth_date_setter
    rw [if_neg (by simp [h1]), if_pos (by simp [h2])]
  · intro h
    refine ⟨"invalid date format, a date object is expected", ?_⟩
    unfold birth_date_setter
    rw [if_pos (by simp [h])]

/-- Claim C5 witness: with today = 2026-10-12, the same date is accepted,
2026-10-13 (one day in the future) is rejected, and 2026-02-30 (not a valid
calendar date) is rejected. -/
theorem c5_birth_date_setter_witness :
    birth_date_setter ⟨2026, 10, 12⟩ ⟨2026, 10, 12⟩ = .ok ⟨2026, 10, 12⟩ ∧
    (∃ e, birth_date_setter ⟨2026, 10, 12⟩ ⟨2026, 10, 13⟩ = .error e) ∧
    (∃ e, birth_date_setter ⟨2026, 10, 12⟩ ⟨2026, 2, 30⟩ = .error e) := by
  refine ⟨(c5_birth_date_setter ⟨2026, 10, 12⟩ ⟨2026, 10, 12⟩ (by decide)).1,
    (c5_birth_date_setter ⟨2026, 10, 12⟩ ⟨2026, 10, 13⟩ (by decide)).2.1
      (by decide) (by decide),
    (c5_birth_date_setter ⟨2026, 10, 12⟩ ⟨2026, 2, 30⟩ (by decide)).2.2
      (by decide)⟩

theorem string_data_ext {s t : String} (h : s.data = t.data) : s = t := by
  cases s with
  | mk l => cases t with
  | mk m => exact congrArg String.mk h

theorem intercalate_cons2 {α : Type} (sep x y : List α) (rest : List (List α)) :
    List.intercalate sep (x :: y :: rest)
      = x ++ sep ++ List.intercalate sep (y :: rest) := by
  simp [List.intercalate, List.intersperse]

theorem intercalate_single {α : Type} (sep x : List α) :
    List.intercalate sep [x] = x := by
  simp [List.intercalate, List.intersperse]

theorem flatten_spec : ∀ (d : List (String × Value)) (parent : String),
    flatten_dict d parent
      = (leafEntries d).map (fun pv => (joinedKey parent pv.1, flatLeaf pv.2)) := by
  intro d parent
  induction d, parent using flatten_dict.induct with
  | case1 parent => simp [flatten_dict, leafEntries]
  | case2 k v rest parent ihm ih =>
    cases v with
    | vdict d2 =>
      simp only [flatten_dict, leafEntries, List.map_append, List.map_map]
      rw [ih, ihm]
      congr 1
    | vlist xs => simp [flatten_dict, leafEntries, ih, joinedKey, flatLeaf]
    | vstr s => simp [flatten_dict, leafEntries, ih, joinedKey, flatLeaf]
    | vint n => simp [flatten_dict, leafEntries, ih, joinedKey, flatLeaf]
    | vrat q => simp [flatten_dict, leafEntries, ih, joinedKey, flatLeaf]

theorem xmlChildren_tags (d : List (String × Value)) :
    (xmlChildren d).map XmlElem.tag = d.map (fun p => sanitizeKey p.1) := by
  induction d with
  | nil => simp [xmlChildren]
  | cons a rest ih =>
    obtain ⟨k, v⟩ := a
    cases v <;> simp [xmlChildren, dict_to_xml, ih]

theorem keys_dictSet {α : Type} (m : List (String × α)) (k : String) (v : α) :
    (dictSet m k v).map Prod.fst = m.map Prod.fst ∨
    (dictSet m k v).map Prod.fst = m.map Prod.fst ++ [k] := by
  unfold dictSet
  split_ifs with h
  · left
    rw [List.map_map]
    apply List.map_congr_left
    intro p hp
    by_cases hpk : p.1 = k
    · simp [hpk]
    · simp [hpk]
  · right
    simp

theorem mem_keys_dictSet {α : Type} {m : List (String × α)} {k0 : String}
    (k : String) (v : α) (h : k0 ∈ m.map Prod.fst) :
    k0 ∈ (dictSet m k v).map Prod.fst := by
  rcases keys_dictSet m k v with he | he <;> rw [he]
  · exact h
  · exact List.mem_append.mpr (Or.inl h)

theorem self_mem_keys_dictSet {α : Type} (m : List (String × α)) (k : String)
    (v : α) : k ∈ (dictSet m k v).map Prod.fst := by
  unfold dictSet
  split_ifs with h
  · obtain ⟨p, hp, hpk⟩ := List.any_eq_true.mp h
    rw [List.map_map]
    refine List.mem_map.mpr ⟨p, hp, ?_⟩
    simp only [Function.comp]
    rw [if_pos (by simpa using hpk)]
  · simp

theorem mem_keys_dictOfItems {α : Type} :
    ∀ (items acc : List (String × α)) (k : String),
      (k ∈ acc.map Prod.fst ∨ k ∈ items.map Prod.fst) →
      k ∈ (items.foldl (fun m p => dictSet m p.1 p.2) acc).map Prod.fst := by
  intro items
  induction items with
  | nil => intro acc k h; simpa using h.resolve_right (by simp)
  | cons a t ih =>
    intro acc k h
    simp only [List.foldl_cons]
    apply ih
    rcases h with h | h
    · exact Or.inl (mem_keys_dictSet a.1 a.2 h)
    · rw [List.map_cons] at h
      rcases List.mem_cons.mp h with h1 | h1
      · exact Or.inl (h1 ▸ self_mem_keys_dictSet acc a.1 a.2)
      · exact Or.inr h1

theorem dictSet_ne_nil {α : Type} (m : List (String × α)) (k : String) (v : α) :
    dictSet m k v ≠ [] := by
  unfold dictSet
  split_ifs with h
  · intro hc
    rw [List.map_eq_nil_iff] at hc
    rw [hc] at h
    simp at h
  · simp

theorem foldl_dictSet_ne_nil {α : Type} :
    ∀ (items acc : List (String × α)), acc ≠ [] →
      items.foldl (fun m p => dictSet m p.1 p.2) acc ≠ [] := by
  intro items
  induction items with
  | nil => intro acc h; simpa using h
  | cons a t ih =>
    intro acc h
    simp only [List.foldl_cons]
    exact ih _ (dictSet_ne_nil acc a.1 a.2)

theorem dictOfItems_ne_nil {α : Type} (items : List (String × α))
    (h : items ≠ []) : dictOfItems items ≠ [] := by
  unfold dictOfItems
  cases items with
  | nil => exact absurd rfl h
  | cons a t =>
    simp only [List.foldl_cons]
    exact foldl_dictSet_ne_nil t _ (dictSet_ne_nil [] a.1 a.2)

theorem leafEntries_path_ne_nil :
    ∀ (d : List (String × Value)), ∀ pv ∈ leafEntries d, pv.1 ≠ [] := by
  intro d
  induction d using leafEntries.induct with
  | case1 =>
    intro pv hpv
    simp [leafEntries] at hpv
  | case2 k v rest ihm ih =>
    intro pv hpv
    cases v with
    | vdict d2 =>
      simp only [leafEntries] at hpv
      rcases List.mem_append.mp hpv with h1 | h1
      · obtain ⟨qv, _, hqe⟩ := List.mem_map.mp h1
        rw [← hqe]
        simp
      · exact ih pv h1
    | vlist xs =>
      simp only [leafEntries] at hpv
      rcases List.mem_append.mp hpv with h1 | h1
      · simp at h1; rw [h1]; simp
      · exact ih pv h1
    | vstr s =>
      simp only [leafEntries] at hpv
      rcases List.mem_append.mp hpv with h1 | h1
      · simp at h1; rw [h1]; simp
      · exact ih pv h1
    | vint n =>
      simp only [leafEntries] at hpv
      rcases List.mem_append.mp hpv with h1 | h1
      · simp at h1; rw [h1]; simp
      · exact ih pv h1
    | vrat q =>
      simp only [leafEntries] at hpv
      rcases List.mem_append.mp hpv with h1 | h1
      · simp at h1; rw [h1]; simp
      · exact ih pv h1

theorem leafEntries_ne_nil :
    ∀ (d : List (String × Value)), wfRecord d = true → d ≠ [] →
      leafEntries d ≠ [] := by
  intro d
  induction d using leafEntries.induct with
  | case1 => intro _ h; exact absurd rfl h
  | case2 k v rest ihm ih =>
    intro hwf _
    cases v with
    | vdict d2 =>
      simp only [wfRecord, Bool.and_eq_true] at hwf
      simp only [leafEntries]
      intro hc
      rw [List.append_eq_nil] at hc
      have h2 : leafEntries d2 ≠ [] := by
        refine ihm ?_ ?_
        · exact hwf.1.2
        · intro hnil
          rw [hnil] at hwf
          simpa using hwf.1.1
      rw [List.map_eq_nil_iff] at hc
      exact h2 hc.1
    | vlist xs => simp [leafEntries]
    | vstr s => simp [leafEntries]
    | vint n => simp [leafEntries]
    | vrat q => simp [leafEntries]

theorem csv_cover :
    ∀ (d : List (String × Value)), wfRecord d = true →
      ∀ k ∈ allKeysD d, ∃ pv ∈ leafEntries d, k ∈ pv.1 := by
  intro d
  induction d using leafEntries.induct with
  | case1 =>
    intro _ k hk
    simp [allKeysD] at hk
  | case2 k0 v rest ihm ih =>
    intro hwf k hk
    cases v with
    | vdict d2 =>
      simp only [wfRecord, Bool.and_eq_true] at hwf
      simp only [allKeysD, List.cons_append, List.mem_cons, List.mem_append] at hk
      rcases hk with hk | hk | hk
      · -- k is the head key: any leaf of the non-empty sub-dict witnesses it
        have h2 : leafEntries d2 ≠ [] :=
          leafEntries_ne_nil d2 hwf.1.2
            (by intro hnil; rw [hnil] at hwf; simpa using hwf.1.1)
        obtain ⟨pv0, hpv0⟩ := List.exists_mem_of_ne_nil _ h2
        refine ⟨(k0 :: pv0.1, pv0.2), ?_, ?_⟩
        · simp only [leafEntries, List.mem_append]
          exact Or.inl (List.mem_map.mpr ⟨pv0, hpv0, rfl⟩)
        · rw [hk]; exact List.mem_cons_self _ _
      · obtain ⟨pv0, hpv0, hkin⟩ := ihm hwf.1.2 k hk
        refine ⟨(k0 :: pv0.1, pv0.2), ?_, ?_⟩
        · simp only [leafEntries, List.mem_append]
          exact Or.inl (List.mem_map.mpr ⟨pv0, hpv0, rfl⟩)
        · exact List.mem_cons_of_mem _ hkin
      · obtain ⟨pv0, hpv0, hkin⟩ := ih hwf.2 k hk
        refine ⟨pv0, ?_, hkin⟩
        simp only [leafEntries, List.mem_append]
        exact Or.inr hpv0
    | vlist xs =>
      simp only [wfRecord, Bool.and_eq_true] at hwf
      simp only [allKeysD, List.cons_append, List.mem_cons, List.mem_append] at hk
      rcases hk with hk | hk | hk
      · refine ⟨([k0], .vlist xs), ?_, ?_⟩
        · simp [leafEntries]
        · rw [hk]; exact List.mem_cons_self _ _
      · simp at hk
      · obtain ⟨pv0, hpv0, hkin⟩ := ih hwf.2 k hk
        exact ⟨pv0, by simp only [leafEntries, List.mem_append]; exact Or.inr hpv0, hkin⟩
    | vstr s =>
      simp only [wfRecord, Bool.and_eq_true] at hwf
      simp only [allKeysD, List.cons_append, List.mem_cons, List.mem_append] at hk
      rcases hk with hk | hk | hk
      · exact ⟨([k0], .vstr s), by simp [leafEntries], by rw [hk]; exact List.mem_cons_self _ _⟩
      · simp at hk
      · obtain ⟨pv0, hpv0, hkin⟩ := ih hwf.2 k hk
        exact ⟨pv0, by simp only [leafEntries, List.mem_append]; exact Or.inr hpv0, hkin⟩
    | vint n =>
      simp only [wfRecord, Bool.and_eq_true] at hwf
      simp only [allKeysD, List.cons_append, List.mem_cons, List.mem_append] at hk
      rcases hk with hk | hk | hk
      · exact ⟨([k0], .vint n), by simp [leafEntries], by rw [hk]; exact List.mem_cons_self _ _⟩
      · simp at hk
      · obtain ⟨pv0, hpv0, hkin⟩ := ih hwf.2 k hk
        exact ⟨pv0, by simp only [leafEntries, List.mem_append]; exact Or.inr hpv0, hkin⟩
    | vrat q =>
      simp only [wfRecord, Bool.and_eq_true] at hwf
      simp only [allKeysD, List.cons_append, List.mem_cons, List.mem_append] at hk
      rcases hk with hk | hk | hk
      · exact ⟨([k0], .vrat q), by simp [leafEntries], by rw [hk]; exact List.mem_cons_self _ _⟩
      · simp at hk
      · obtain ⟨pv0, hpv0, hkin⟩ := ih hwf.2 k hk
        exact ⟨pv0, by simp only [leafEntries, List.mem_append]; exact Or.inr hpv0, hkin⟩

theorem xml_cover_children :
    ∀ (d : List (String × Value)),
      ∀ k ∈ allKeysD d, sanitizeKey k ∈ xmlTagsList (xmlChildren d) := by
  intro d
  induction d using leafEntries.induct with
  | case1 =>
    intro k hk
    simp [allKeysD] at hk
  | case2 k0 v rest ihm ih =>
    intro k hk
    cases v with
    | vdict d2 =>
      simp only [allKeysD, List.cons_append, List.mem_cons, List.mem_append] at hk
      simp only [xmlChildren, xmlTagsList, List.mem_append]
      rcases hk with hk | hk | hk
      · left
        rw [hk]
        simp [dict_to_xml, xmlTags]
      · left
        simp only [dict_to_xml, xmlTags]
        exact List.mem_cons_of_mem _ (ihm k hk)
      · right
        exact ih k hk
    | vlist xs =>
      simp only [allKeysD, List.cons_append, List.mem_cons, List.mem_append] at hk
      simp only [xmlChildren, xmlTagsList, List.mem_append]
      rcases hk with hk | hk | hk
      · left; rw [hk]; simp [xmlTags]
      · simp at hk
      · right; exact ih k hk
    | vstr s0 =>
      simp only [allKeysD, List.cons_append, List.mem_cons, List.mem_append] at hk
      simp only [xmlChildren, xmlTagsList, List.mem_append]
      rcases hk with hk | hk | hk
      · left; rw [hk]; simp [xmlTags]
      · simp at hk
      · right; exact ih k hk
    | vint n =>
      simp only [allKeysD, List.cons_append, List.mem_cons, List.mem_append] at hk
      simp only [xmlChildren, xmlTagsList, List.mem_append]
      rcases hk with hk | hk | hk
      · left; rw [hk]; simp [xmlTags]
      · simp at hk
      · right; exact ih k hk
    | vrat q =>
      simp only [allKeysD, List.cons_append, List.mem_cons, List.mem_append] at hk
      simp only [xmlChildren, xmlTagsList, List.mem_append]
      rcases hk with hk | hk | hk
      · left; rw [hk]; simp [xmlTags]
      · simp at hk
      · right; exact ih k hk

theorem xml_cover (d : List (String × Value)) (t : String) :
    ∀ k ∈ allKeysD d, sanitizeKey k ∈ xmlTags (dict_to_xml t d) := by
  intro k hk
  simp only [dict_to_xml, xmlTags]
  exact List.mem_cons_of_mem _ (xml_cover_children d k hk)

theorem mk_eq_empty_iff (l : List Char) : (⟨l⟩ : String) = "" ↔ l = [] := by
  constructor
  · intro h
    have h2 : (String.mk l).data = ("" : String).data := congrArg String.data h
    simpa using h2
  · intro h; rw [h]

theorem sanitizeKey_ne_empty {k : String} (h : k ≠ "") : sanitizeKey k ≠ "" := by
  intro hc
  unfold sanitizeKey at hc
  rw [mk_eq_empty_iff, List.map_eq_nil_iff] at hc
  exact h (by cases k with | mk l => rw [show l = [] from hc])

theorem newKey_ne_empty (parent sk : String) (h : parent ≠ "") :
    newKey parent sk ≠ "" := by
  unfold newKey
  rw [if_neg h]
  intro hc
  have h2 := congrArg String.data hc
  rw [String.data_append, String.data_append] at h2
  simp at h2

theorem foldl_newKey_join :
    ∀ (t : List String) (acc : String), acc ≠ "" →
      t.foldl (fun a k => newKey a (sanitizeKey k)) acc
        = joinSep "." (acc :: t.map sanitizeKey) := by
  intro t
  induction t with
  | nil =>
    intro acc _
    apply string_data_ext
    simp [joinSep, intercalate_single]
  | cons k t' ih =>
    intro acc hacc
    simp only [List.foldl_cons, List.map_cons]
    rw [ih (newKey acc (sanitizeKey k)) (newKey_ne_empty acc _ hacc)]
    apply string_data_ext
    simp only [joinSep, List.map_cons]
    show List.intercalate ".".data ((newKey acc (sanitizeKey k)).data :: (t'.map sanitizeKey).map String.data)
      = List.intercalate ".".data (acc.data :: (sanitizeKey k).data :: (t'.map sanitizeKey).map String.data)
    have hnk : (newKey acc (sanitizeKey k)).data
        = acc.data ++ ".".data ++ (sanitizeKey k).data := by
      unfold newKey
      rw [if_neg hacc, String.data_append, String.data_append]
    rw [hnk]
    cases hl : (t'.map sanitizeKey).map String.data with
    | nil =>
      rw [intercalate_single, intercalate_cons2, intercalate_single]
    | cons r rs =>
      rw [intercalate_cons2, intercalate_cons2, intercalate_cons2]
      simp [List.append_assoc]

theorem joinedKey_join (h : String) (t : List String) (hne : h ≠ "") :
    joinedKey "" (h :: t) = joinSep "." ((h :: t).map sanitizeKey) := by
  unfold joinedKey
  simp only [List.foldl_cons]
  have h0 : newKey "" (sanitizeKey h) = sanitizeKey h := by
    unfold newKey; rw [if_pos rfl]
  rw [h0, foldl_newKey_join t (sanitizeKey h) (sanitizeKey_ne_empty hne)]
  simp

theorem jsonEscapeChar_safe {c : Char} (h : jsonSafeChar c = true) :
    jsonEscapeChar c = [c] := by
  unfold jsonSafeChar at h
  simp only [Bool.not_eq_true', Bool.or_eq_false_iff, decide_eq_false_iff_not] at h
  obtain ⟨⟨h1, h2⟩, h3⟩ := h
  have h1' : c ≠ '"' := by simpa using h1
  have h2' : c ≠ '\\' := by simpa using h2
  unfold jsonEscapeChar
  rw [if_neg h1', if_neg h2',
    if_neg (fun hc : c = '\n' => h3 (hc ▸ (by decide))),
    if_neg (fun hc : c = '\t' => h3 (hc ▸ (by decide))),
    if_neg (fun hc : c = '\r' => h3 (hc ▸ (by decide))),
    if_neg (fun hc : c = Char.ofNat 8 => h3 (hc ▸ (by decide))),
    if_neg (fun hc : c = Char.ofNat 12 => h3 (hc ▸ (by decide))),
    if_neg h3]

theorem jsonEscape_list :
    ∀ (l : List Char), (∀ x ∈ l, jsonSafeChar x = true) →
      l.flatMap jsonEscapeChar = l := by
  intro l
  induction l with
  | nil => intro _; rfl
  | cons c t ih =>
    intro h
    have h1 := jsonEscapeChar_safe (h c (List.mem_cons_self c t))
    have h2 := ih (fun x hx => h x (List.mem_cons_of_mem c hx))
    simp [List.flatMap_cons, h1, h2]

theorem jsonEscape_safe {k : String} (h : k.data.all jsonSafeChar = true) :
    jsonEscape k = k := by
  apply string_data_ext
  show k.data.flatMap jsonEscapeChar = k.data
  exact jsonEscape_list k.data (List.all_eq_true.mp h)

theorem dumpDict_key_infix :
    ∀ (d : List (String × Value)) (lvl : ℕ) (k : String) (v : Value),
      (k, v) ∈ d →
      ("\"" ++ jsonEscape k ++ "\": ").data <:+: (dumpDict lvl d).data := by
  intro d
  induction d with
  | nil =>
    intro lvl k v hm
    simp at hm
  | cons a rest ih =>
    intro lvl k v hm
    obtain ⟨k0, v0⟩ := a
    cases rest with
    | nil =>
      rcases List.mem_cons.mp hm with h1 | h1
      · injection h1 with hk hv
        subst hk
        subst hv
        refine ⟨(spacesN (4 * lvl)).data, (dumpValue lvl v).data, ?_⟩
        simp only [dumpDict]
        simp [String.data_append, List.append_assoc]
      · simp at h1
    | cons b rest2 =>
      rcases List.mem_cons.mp hm with h1 | h1
      · injection h1 with hk hv
        subst hk
        subst hv
        refine ⟨(spacesN (4 * lvl)).data,
          (dumpValue lvl v).data ++ (",\n" : String).data
            ++ (dumpDict lvl (b :: rest2)).data, ?_⟩
        simp only [dumpDict]
        simp [String.data_append, List.append_assoc]
      · obtain ⟨s, t, hst⟩ := ih lvl k v h1
        refine ⟨(spacesN (4 * lvl)).data ++ ("\"" : String).data
          ++ (jsonEscape k0).data ++ ("\": " : String).data
          ++ (dumpValue lvl v0).data ++ (",\n" : String).data ++ s, t, ?_⟩
        simp only [dumpDict, String.data_append]
        rw [← hst]
        simp [String.data_append, List.append_assoc]

theorem jsonSave_key_infix (d : List (String × Value)) (k : String) (v : Value)
    (out : String) (hm : (k, v) ∈ d) (hsafe : k.data.all jsonSafeChar = true)
    (hout : jsonSave d = .ok out) :
    ("\"" ++ k ++ "\": ").data <:+: out.data := by
  have hdne : d.isEmpty = false := by
    cases d with
    | nil => simp at hm
    | cons a t => rfl
  unfold jsonSave at hout
  rw [hdne] at hout
  simp only [Bool.false_eq_true, if_false] at hout
  cases hout
  simp only [dumpValue, hdne, Bool.false_eq_true, if_false]
  obtain ⟨s, t, hst⟩ := dumpDict_key_infix d 1 k v hm
  rw [jsonEscape_safe hsafe] at hst
  refine ⟨("\x7b\n" : String).data ++ s,
    t ++ ("\n" : String).data ++ (spacesN 0).data ++ ("\x7d" : String).data, ?_⟩
  simp only [String.data_append, Nat.zero_add]
  rw [← hst]
  simp [String.data_append, List.append_assoc]

theorem wf_flat_vint : ∀ (l : List (String × ℤ)),
    wfRecord (l.map (fun p => (p.1, Value.vint p.2))) = true := by
  intro l
  induction l with
  | nil => simp [wfRecord]
  | cons a t ih => simp [wfRecord, ih]

theorem all_scalar_vstr (l : List String) :
    ((l.map Value.vstr).all (fun item =>
      match item with
      | Value.vdict _ => false
      | Value.vlist _ => false
      | _ => true)) = true := by
  induction l with
  | nil => rfl
  | cons a t ih => simpa [List.all_cons] using ih

theorem all_scalar_vint (l : List ℤ) :
    ((l.map Value.vint).all (fun item =>
      match item with
      | Value.vdict _ => false
      | Value.vlist _ => false
      | _ => true)) = true := by
  induction l with
  | nil => rfl
  | cons a t ih => simpa [List.all_cons] using ih

theorem zip_ne_nil {α β : Type} {l1 : List α} {l2 : List β}
    (h1 : l1 ≠ []) (h2 : l2 ≠ []) : l1.zip l2 ≠ [] := by
  cases l1 with
  | nil => exact absurd rfl h1
  | cons a t =>
    cases l2 with
    | nil => exact absurd rfl h2
    | cons b t2 => simp [List.zip_cons_cons]

theorem improvement_ne_nil {rp dp : AcademicPerformance}
    (hrs : rp.subjects ≠ []) (hrg : rp.grades ≠ []) (hdg : dp.grades ≠ []) :
    get_improvement_needed rp.subjects rp.grades dp.grades ≠ [] := by
  unfold get_improvement_needed
  apply dictOfItems_ne_nil
  intro hc
  rw [List.map_eq_nil_iff] at hc
  exact zip_ne_nil hrs (zip_ne_nil hrg hdg) hc

theorem wf_to_dict (today : PyDate) (st : Student) (rp dp : AcademicPerformance)
    (hrs : rp.subjects ≠ []) (hrg : rp.grades ≠ []) (hdg : dp.grades ≠ []) :
    wfRecord (to_dict today st rp dp) = true := by
  have himp := improvement_ne_nil hrs hrg hdg
  have h2 : ((get_improvement_needed rp.subjects rp.grades dp.grades).map
      (fun p => (p.1, Value.vint p.2))).isEmpty = false := by
    rcases hres : get_improvement_needed rp.subjects rp.grades dp.grades with _ | ⟨a, t⟩
    · exact absurd hres himp
    · rfl
  simp [to_dict, wfRecord, all_scalar_vstr, all_scalar_vint, wf_flat_vint, h2]

-- ## Serialization claim theorems

/-- Claim C6: for every key of the exported record, the markup backend's tag
and the tabular backend's column-path segment are the key with every
non-alphanumeric character replaced by `_` (for `"Phys-101"`: `"Phys_101"`),
while the document backend emits the original key string unmodified (as the
quoted JSON object key). -/
theorem c6_key_sanitization :
    (∀ (t : String) (d : List (String × Value)),
      (dict_to_xml t d).children.map XmlElem.tag
        = d.map (fun p => sanitizeKey p.1)) ∧
    (∀ (d : List (String × Value)) (parent : String),
      (flatten_dict d parent).map Prod.fst
        = (leafEntries d).map (fun pv => joinedKey parent pv.1)) ∧
    (∀ (d : List (String × Value)) (k : String) (v : Value) (out : String),
      (k, v) ∈ d → k.data.all jsonSafeChar = true → jsonSave d = .ok out →
      ("\"" ++ k ++ "\": ").data <:+: out.data) ∧
    sanitizeKey "Phys-101" = "Phys_101" := by
  refine ⟨?_, ?_, ?_, by decide⟩
  · intro t d
    have hd : dict_to_xml t d = ⟨t, "", xmlChildren d⟩ := by rw [dict_to_xml]
    rw [hd]
    exact xmlChildren_tags d
  · intro d parent
    rw [flatten_spec, List.map_map]
    rfl
  · intro d k v out hm hsafe hout
    exact jsonSave_key_infix d k v out hm hsafe hout

/-- Claim C6 witness: the theorem applied to a one-entry record holding the
key `"Phys-101"`: the markup tag list is the sanitized key, and the quoted
original key occurs verbatim in the document output. -/
theorem c6_key_sanitization_witness :
    (dict_to_xml "student_data" [("Phys-101", Value.vint 7)]).children.map
        XmlElem.tag
      = [("Phys-101", Value.vint 7)].map (fun p => sanitizeKey p.1) ∧
    ("\"" ++ "Phys-101" ++ "\": ").data <:+:
      (dumpValue 0 (.vdict [("Phys-101", Value.vint 7)])).data ∧
    sanitizeKey "Phys-101" = "Phys_101" :=
  ⟨c6_key_sanitization.1 "student_data" [("Phys-101", Value.vint 7)],
   c6_key_sanitization.2.2.1 [("Phys-101", Value.vint 7)] "Phys-101"
     (Value.vint 7) (dumpValue 0 (.vdict [("Phys-101", Value.vint 7)]))
     (List.mem_cons_self _ _) (by decide) rfl,
   c6_key_sanitization.2.2.2⟩

/-- Claim C7: for every export record produced by `StudentData.to_dict` (from
performances satisfying the class invariants), every key of the record — the
key set the document backend prints — also reaches the tabular backend as part
of a dotted, sanitized column name, and appears as a sanitized tag in the
markup backend's tree: the backends lose no keys.  The record is structurally
well-formed (non-empty nested dicts, scalar-only lists). -/
theorem c7_backends_cover_keys (today : PyDate) (st : Student)
    (rp dp : AcademicPerformance)
    (hrs : rp.subjects ≠ []) (hrg : rp.grades ≠ []) (hdg : dp.grades ≠ []) :
    wfRecord (to_dict today st rp dp) = true ∧
    ∀ k ∈ allKeysD (to_dict today st rp dp),
      (∃ pv ∈ leafEntries (to_dict today st rp dp),
        k ∈ pv.1 ∧
        joinedKey "" pv.1 ∈
          (dictOfItems (flatten_dict (to_dict today st rp dp) "")).map
            Prod.fst) ∧
      sanitizeKey k ∈ xmlTags (dict_to_xml "student_data"
        (to_dict today st rp dp)) := by
  have hwf := wf_to_dict today st rp dp hrs hrg hdg
  refine ⟨hwf, ?_⟩
  intro k hk
  constructor
  · obtain ⟨pv, hpv, hkin⟩ := csv_cover _ hwf k hk
    refine ⟨pv, hpv, hkin, ?_⟩
    apply mem_keys_dictOfItems
    right
    rw [flatten_spec, List.map_map]
    exact List.mem_map.mpr ⟨pv, hpv, rfl⟩
  · exact xml_cover _ "student_data" k hk

/-- Claim C7 witness: the theorem applied to a concrete student with one
subject. -/
theorem c7_backends_cover_keys_witness :
    wfRecord (to_dict ⟨2026, 10, 12⟩
      ⟨"Doe", "John", "Smith", "G-1", ⟨2000, 1, 1⟩, ""⟩
      ⟨["Math"], [85]⟩ ⟨["Math"], [90]⟩) = true :=
  (c7_backends_cover_keys ⟨2026, 10, 12⟩
    ⟨"Doe", "John", "Smith", "G-1", ⟨2000, 1, 1⟩, ""⟩
    ⟨["Math"], [85]⟩ ⟨["Math"], [90]⟩
    (by decide) (by decide) (by decide)).1

/-- Claim C8: on a non-empty record (whose flattened column names do not
collide), the tabular backend writes exactly one header row — the flattened
keys, which are the dotted joins of the sanitized key-path segments — followed
by exactly one data row, with every list value joined into a single field by
`"; "`. -/
theorem c8_csv_structure (d : List (String × Value)) (hne : d ≠ [])
    (hnodup : ((leafEntries d).map (fun pv => joinedKey "" pv.1)).Nodup) :
    csvSave d = .ok
      [(leafEntries d).map (fun pv => joinedKey "" pv.1),
       (leafEntries d).map (fun pv => scalarStr (flatLeaf pv.2))] ∧
    (∀ pv ∈ leafEntries d, ∀ xs, pv.2 = Value.vlist xs →
      scalarStr (flatLeaf pv.2) = joinSep "; " (xs.map scalarStr)) ∧
    (∀ pv ∈ leafEntries d, (∀ s ∈ pv.1, s ≠ "") →
      joinedKey "" pv.1 = joinSep "." (pv.1.map sanitizeKey)) := by
  refine ⟨?_, ?_, ?_⟩
  · unfold csvSave
    have hie : d.isEmpty = false := by
      cases d with
      | nil => exact absurd rfl hne
      | cons a t => rfl
    rw [hie]
    simp only [Bool.false_eq_true, if_false]
    have hcoll : dictOfItems (flatten_dict d "") = flatten_dict d "" := by
      unfold dictOfItems
      rw [foldl_dictSet_nodup _ []]
      · simp
      · simp only [List.map_nil, List.nil_append]
        rw [flatten_spec, List.map_map]
        exact hnodup
    rw [hcoll, flatten_spec, List.map_map, List.map_map]
    rfl
  · intro pv _ xs he
    rw [he]
    rfl
  · intro pv hpv hne'
    rcases hp : pv.1 with _ | ⟨h0, t0⟩
    · exact absurd hp (leafEntries_path_ne_nil d pv hpv)
    · rw [← hp]
      rw [hp]
      exact joinedKey_join h0 t0 (hne' h0 (by rw [hp]; exact List.mem_cons_self _ _))

/-- Claim C8 witness: the theorem applied to a concrete nested record with a
list value. -/
theorem c8_csv_structure_witness :
    csvSave [("student", Value.vdict [("full name", Value.vstr "John Doe")]),
             ("grades", Value.vlist [Value.vint 85, Value.vint 90])]
      = .ok
        [(leafEntries [("student", Value.vdict [("full name", Value.vstr "John Doe")]),
                       ("grades", Value.vlist [Value.vint 85, Value.vint 90])]).map
            (fun pv => joinedKey "" pv.1),
         (leafEntries [("student", Value.vdict [("full name", Value.vstr "John Doe")]),
                       ("grades", Value.vlist [Value.vint 85, Value.vint 90])]).map
            (fun pv => scalarStr (flatLeaf pv.2))] :=
  (c8_csv_structure
    [("student", Value.vdict [("full name", Value.vstr "John Doe")]),
     ("grades", Value.vlist [Value.vint 85, Value.vint 90])]
    (by simp)
    (by
      have hle : leafEntries
          [("student", Value.vdict [("full name", Value.vstr "John Doe")]),
           ("grades", Value.vlist [Value.vint 85, Value.vint 90])]
        = [(["student", "full name"], Value.vstr "John Doe"),
           (["grades"], Value.vlist [Value.vint 85, Value.vint 90])] := by
        simp [leafEntries]
      rw [hle]
      decide)).1
